import Mathlib

/-!
# Verification of ddc-source-nvim-lsp

A shallow embedding of `src/denops/@ddc-sources/nvim-lsp.ts` (the sole
source file of the repository) together with theorems checking the
natural-language specification against it.

Modelling conventions:
* Host/RPC effects (`denops.call`, `luaeval`, `printError`, buffer edits,
  snippet parsing) are made observable as an explicit `Effect` list or as
  fields of the result, so that "X happens" / "X never happens" is statable.
* The helper module `completion_item.ts` (`CompletionItem.toDdcItem`,
  `getInsertText`, `isReplace`, `confirm`) is not part of `src/`; its
  functions enter the model as universally quantified parameters, so every
  theorem holds for all possible implementations of them.
* `Promise.all` over the per-client async closures is sequentialised: every
  closure runs to completion (JavaScript does not cancel the siblings of a
  rejected promise), the combined promise rejects when any closure rejected,
  the single `.catch` then replaces the merged item list by `[]` and reports
  the first error.
* JS strings are Lean `String`s, JS `Record<number, T>` is an association
  list with most-recent-binding-wins lookup.
-/

namespace NvimLsp

/-! ## Basic protocol data (LSP types as read by the source) -/

/-- LSP `MarkupContent`: `{ kind, value }`.  `kind` is `"plaintext"` or
`"markdown"`; `value` is a required string field. -/
structure MarkupContent where
  kind : String
  value : String
  deriving DecidableEq, Repr

/-- The `documentation` field of a completion item:
`string | LSP.MarkupContent`. -/
inductive Doc where
  | str (s : String)
  | markup (m : MarkupContent)
  deriving DecidableEq, Repr

/-- An LSP text edit.  The source never looks inside `additionalTextEdits`
entries (only at presence of the array), so the payload is just the new
text. -/
structure TextEdit where
  newText : String
  deriving DecidableEq, Repr

/-- The fields of `LSP.CompletionItem` that `nvim-lsp.ts` itself reads.
`dataTscSource` abstracts the `u.isObjectOf({ tsc: { source: isString } })`
check on the opaque `data` payload: it is `some s` exactly when `data` is an
object of shape `{ tsc: { source: s } }` with `s` a string. -/
structure LspItem where
  label : String
  kind : Option Nat
  detail : Option String
  documentation : Option Doc
  insertText : Option String
  additionalTextEdits : Option (List TextEdit)
  dataTscSource : Option String
  deriving DecidableEq, Repr

/-- `CompletionOptions` of a provider (fields read by the source:
`triggerCharacters?`, `resolveProvider?`). -/
structure CompletionOptions where
  triggerCharacters : Option (List String)
  resolveProvider : Option Bool
  deriving DecidableEq, Repr

/-- `type Client = { id, provider, offsetEncoding }` (nvim-lsp.ts:28). -/
structure Client where
  id : Nat
  provider : CompletionOptions
  offsetEncoding : String
  deriving DecidableEq, Repr

/-- `CompletionList.itemDefaults` (passed opaquely to `toDdcItem`). -/
structure ItemDefaults where
  commitCharacters : Option (List String)
  insertTextFormat : Option Nat
  deriving DecidableEq, Repr

/-- `LSP.CompletionList` as read by the source: `isIncomplete`, `items`,
`itemDefaults`. -/
structure CompletionList where
  isIncomplete : Bool
  items : List LspItem
  itemDefaults : Option ItemDefaults
  deriving DecidableEq, Repr

/-- `type Result = LSP.CompletionList | LSP.CompletionItem[]` (nvim-lsp.ts:34). -/
inductive Result where
  | list (l : CompletionList)
  | arr (items : List LspItem)
  deriving DecidableEq, Repr

/-- nvim-lsp.ts:110-112: an array result is wrapped as
`{ items: result, isIncomplete: false }`. -/
def toCompletionList : Result → CompletionList
  | .list l => l
  | .arr items => ⟨false, items, none⟩

/-! ## String helpers -/

/-- JS `str.slice(-1)`: the last character as a one-character string, `""`
for the empty string (nvim-lsp.ts:150). -/
def lastCharStr (s : String) : String :=
  String.mk ((s.data.reverse.take 1).reverse)

/-- JS `str.slice(start, stop)` for non-negative in-range-clamped indices
(nvim-lsp.ts:202). -/
def jsSlice (s : String) (start stop : Nat) : String :=
  String.mk ((s.data.take stop).drop start)

/-- One pass of the regex `/\r\n?/g → "\n"` replacement: `"\r\n"` and a lone
`"\r"` both become `"\n"` (nvim-lsp.ts:69). -/
def normalizeNewlines : List Char → List Char
  | [] => []
  | '\r' :: '\n' :: rest => '\n' :: normalizeNewlines rest
  | '\r' :: rest => '\n' :: normalizeNewlines rest
  | c :: rest => c :: normalizeNewlines rest

/-- JS `str.split("\n")` on a character list.  Always returns at least one
(possibly empty) segment, like the JS counterpart. -/
def splitOnNewline : List Char → List (List Char)
  | [] => [[]]
  | c :: rest =>
    if c = '\n' then [] :: splitOnNewline rest
    else
      match splitOnNewline rest with
      | [] => [[c]]
      | l :: ls => (c :: l) :: ls

/-- `splitLines` (nvim-lsp.ts:68-70):
`str.replaceAll(/\r\n?/g, "\n").split("\n")`. -/
def splitLines (s : String) : List String :=
  (splitOnNewline (normalizeNewlines s.data)).map String.mk

/-! ## Trigger-context computation (Source.request, nvim-lsp.ts:150-162) -/

/-- `CompletionTriggerKind` (from `types.ts`, the standard LSP constants
1 = Invoked, 2 = TriggerCharacter, 3 = TriggerForIncompleteCompletions). -/
inductive CompletionTriggerKind where
  | Invoked
  | TriggerCharacter
  | TriggerForIncompleteCompletions
  deriving DecidableEq, Repr

/-- The `params.context` value the source attaches to a completion request. -/
structure CompletionContext where
  triggerKind : CompletionTriggerKind
  triggerCharacter : Option String
  deriving DecidableEq, Repr

/-- nvim-lsp.ts:150-162: the trigger context of a request.
`trigger = args.context.input.slice(-1)`; if the provider's
`triggerCharacters` contains it the request is `TriggerCharacter` with that
character, otherwise `TriggerForIncompleteCompletions` when
`args.isIncomplete`, otherwise `Invoked`.  A missing `triggerCharacters`
array (`?.includes` on `undefined`) behaves like the empty list. -/
def computeContext (triggerCharacters : Option (List String)) (input : String)
    (sessionIncomplete : Bool) : CompletionContext :=
  let trigger := lastCharStr input
  if (triggerCharacters.getD []).contains trigger then
    ⟨.TriggerCharacter, some trigger⟩
  else if sessionIncomplete then
    ⟨.TriggerForIncompleteCompletions, none⟩
  else
    ⟨.Invoked, none⟩

/-! ## The per-provider item cache (`#item_cache`, nvim-lsp.ts:73) -/

/-- `#item_cache : Record<Client["id"], Item<UserData>[]>`, modelled as an
association list; the most recent binding wins on lookup.  `α` is the type
of normalized ddc items (opaque to the orchestrator). -/
abbrev Cache (α : Type) : Type := List (Nat × List α)

/-- Lookup `#item_cache[id]`.  Note that in the source an empty cached array
is still a cache hit (a JS array is truthy). -/
def cacheGet {α : Type} (c : Cache α) (id : Nat) : Option (List α) :=
  (List.find? (fun p => p.1 == id) c).map (fun p => p.2)

/-- `this.#item_cache[client.id] = items` (nvim-lsp.ts:120). -/
def cachePut {α : Type} (c : Cache α) (id : Nat) (items : List α) : Cache α :=
  (id, items) :: c

/-! ## The gather cycle (Source.gather, nvim-lsp.ts:75-139) -/

/-- The externally determined fate of one provider's completion request:
the RPC answers (`success`), the `deadline` expires (`timeout`,
a `DeadlineError`), or the call fails with any other error (`failure`). -/
inductive RequestOutcome where
  | success (r : Result)
  | timeout
  | failure (e : String)
  deriving DecidableEq, Repr

/-- What happened to one provider after its request was issued
(nvim-lsp.ts:164-180 as observed by `gather`): the non-timeout error was
rethrown (`failed`), the `DeadlineError` was swallowed and `undefined`
returned (`timedOut`), or a result arrived (`completed`, already converted
by `toCompletionList` and normalized/filtered). -/
inductive RequestResult (α : Type) where
  | failed (e : String)
  | timedOut
  | completed (isIncomplete : Bool) (items : List α)
  deriving DecidableEq, Repr

/-- One provider's processing in a gather cycle: either its cache entry was
served without any request (nvim-lsp.ts:90-92), or a request carrying a
computed trigger context was issued. -/
inductive ClientStep (α : Type) where
  | cacheHit (items : List α)
  | requested (ctx : CompletionContext) (res : RequestResult α)
  deriving DecidableEq, Repr

/-- The body of the per-client closure in `gather` (nvim-lsp.ts:89-125)
together with the context computation of `request` (nvim-lsp.ts:150-162).
`norm` is `(lspItem) => completionItem.toDdcItem(lspItem, itemDefaults)`
from the out-of-src `completion_item.ts`; `.filter(isDefined)` becomes
`filterMap`. -/
def processClient {α : Type} (cache : Cache α) (cl : Client)
    (outcome : RequestOutcome) (norm : LspItem → Option ItemDefaults → Option α)
    (input : String) (sessionIncomplete : Bool) : ClientStep α :=
  match cacheGet cache cl.id with
  | some items => .cacheHit items
  | none =>
    let ctx := computeContext cl.provider.triggerCharacters input sessionIncomplete
    match outcome with
    | .failure e => .requested ctx (.failed e)
    | .timeout => .requested ctx .timedOut
    | .success r =>
      let l := toCompletionList r
      .requested ctx (.completed l.isIncomplete
        (l.items.filterMap (fun it => norm it l.itemDefaults)))

/-- The mutable state the per-client closures share: the cache field, the
`isIncomplete` accumulator (nvim-lsp.ts:81,122), the per-client item lists
awaiting `flat(1)`, and the rejections seen so far. -/
structure GatherState (α : Type) where
  cache : Cache α
  isIncomplete : Bool
  acc : List (List α)
  errors : List String
  deriving DecidableEq, Repr

/-- Effect of one client's closure on the shared state (nvim-lsp.ts:89-125):
a cache hit contributes the cached items; a rethrown error rejects this
closure's promise (contributing no items and no flag update); a timeout
contributes `[]`; a completed response contributes its normalized items,
is written to the cache exactly when `isIncomplete` is false
(nvim-lsp.ts:119-121), and ORs its flag into the accumulator. -/
def gatherStep {α : Type} (norm : LspItem → Option ItemDefaults → Option α)
    (input : String) (sessionIncomplete : Bool) (st : GatherState α)
    (co : Client × RequestOutcome) : GatherState α :=
  match processClient st.cache co.1 co.2 norm input sessionIncomplete with
  | .cacheHit items => { st with acc := st.acc ++ [items] }
  | .requested _ (.failed e) => { st with errors := st.errors ++ [e] }
  | .requested _ .timedOut => { st with acc := st.acc ++ [[]] }
  | .requested _ (.completed inc items) =>
    { st with
      cache := if inc then st.cache else cachePut st.cache co.1.id items,
      isIncomplete := st.isIncomplete || inc,
      acc := st.acc ++ [items] }

/-- The state after every client closure of the cycle has settled. -/
def gatherState {α : Type} (cache : Cache α)
    (clients : List (Client × RequestOutcome))
    (norm : LspItem → Option ItemDefaults → Option α)
    (input : String) (sessionIncomplete : Bool) : GatherState α :=
  clients.foldl (gatherStep norm input sessionIncomplete) ⟨cache, false, [], []⟩

/-- The observable outcome of a whole `gather` call: the returned
`DdcGatherItems`, the cache left behind, and the errors passed to
`printError`. -/
structure GatherOutput (α : Type) where
  items : List α
  isIncomplete : Bool
  cache : Cache α
  reportedErrors : List String
  deriving DecidableEq, Repr

/-- `Source.gather` (nvim-lsp.ts:75-139).  `Promise.all(...).then(flat)`
yields the concatenation when no closure rejected; otherwise the single
`.catch` (nvim-lsp.ts:126-129) reports the first rejection via
`printError` and substitutes `[]` for the whole merged list.  Afterwards
(nvim-lsp.ts:131-133) the entire cache is dropped when the accumulated
`isIncomplete` is false. -/
def gather {α : Type} (cache : Cache α)
    (clients : List (Client × RequestOutcome))
    (norm : LspItem → Option ItemDefaults → Option α)
    (input : String) (sessionIncomplete : Bool) : GatherOutput α :=
  let st := gatherState cache clients norm input sessionIncomplete
  { items := if st.errors.isEmpty then st.acc.flatten else []
    isIncomplete := st.isIncomplete
    cache := if st.isIncomplete then st.cache else []
    reportedErrors := st.errors.take 1 }

/-! ## Confirmation (Source.onCompleteDone, nvim-lsp.ts:193-237) -/

/-- `export type ConfirmBehavior = "insert" | "replace"` (nvim-lsp.ts:36). -/
inductive ConfirmBehavior where
  | insert
  | replace
  deriving DecidableEq, Repr

/-- `Params` (nvim-lsp.ts:54-62).  `snippetEngine` may be a callback id or a
function; only its selection matters here, so it stays a string. -/
structure Params where
  snippetEngine : String
  enableResolveItem : Bool
  enableAdditionalTextEdit : Bool
  confirmBehavior : ConfirmBehavior
  snippetIndicator : String
  deriving DecidableEq, Repr

/-- `UserData` (nvim-lsp.ts:38-52).  The source stores `lspitem` as a JSON
string and parses it back; the model keeps the parsed item. -/
structure UserData where
  lspitem : LspItem
  clientId : Nat
  offsetEncoding : String
  resolvable : Bool
  lineOnRequest : String
  requestCharacter : Nat
  suggestCharacter : Nat
  deriving DecidableEq, Repr

/-- The `LineContext` read at confirmation time (live line text and cursor
character offset). -/
structure LineContext where
  text : String
  character : Nat
  deriving DecidableEq, Repr

/-- Host-visible actions of `onCompleteDone` and `getPreviewer`, in the
order they are issued. -/
inductive Effect where
  | resolveCall (clientId : Nat)
  | setUndoPoint
  | confirmEdit
  | skipNextComplete
  | getFiletype
  | parseSnippetCall
  deriving DecidableEq, Repr

/-- The item the decision logic runs on (nvim-lsp.ts:206-209): when
`params.enableResolveItem` the result of `this.resolve` — which is
`resolvedItem ?? lspItem` (nvim-lsp.ts:249, `resolveResult = none` models a
`null` answer) — otherwise the unresolved item.  Note the condition is
`enableResolveItem` alone; `userData.resolvable` is not consulted. -/
def finalLspItem (params : Params) (resolveResult : Option LspItem)
    (ud : UserData) : LspItem :=
  if params.enableResolveItem then resolveResult.getD ud.lspitem else ud.lspitem

/-- The condition of nvim-lsp.ts:212-221 deciding whether `item.word` is
insufficient and an explicit confirm is needed.  `getInsertText` and
`isReplace` come from the out-of-src `completion_item.ts` and are
parameters.  JS truthiness of `lspItem.additionalTextEdits` is presence of
the array (an empty array is truthy). -/
def needsConfirm (getInsertText : LspItem → String)
    (isReplace : LspItem → ConfirmBehavior → Nat → Nat → Bool)
    (params : Params) (item : LspItem) (itemWord : String)
    (ud : UserData) : Bool :=
  (getInsertText item != itemWord) ||
    (params.enableAdditionalTextEdit && item.additionalTextEdits.isSome) ||
    isReplace item params.confirmBehavior ud.suggestCharacter ud.requestCharacter

/-- `Source.onCompleteDone` (nvim-lsp.ts:193-237) as the list of
host-visible effects it performs.  The guard (nvim-lsp.ts:200-204) compares
`ctx.text.slice(userData.suggestCharacter, ctx.character)` with
`v:completed_item.word` and returns silently on mismatch.  Otherwise the
item is resolved when configured, and when `needsConfirm` holds the source
sets an undo point, calls `CompletionItem.confirm` (the buffer mutation)
and `ddc#skip_next_complete`. -/
def onCompleteDone (getInsertText : LspItem → String)
    (isReplace : LspItem → ConfirmBehavior → Nat → Nat → Bool)
    (resolveResult : Option LspItem) (itemWord : String) (ctx : LineContext)
    (ud : UserData) (params : Params) : List Effect :=
  if jsSlice ctx.text ud.suggestCharacter ctx.character = itemWord then
    let item := finalLspItem params resolveResult ud
    let resolveEffects :=
      if params.enableResolveItem then [Effect.resolveCall ud.clientId] else []
    if needsConfirm getInsertText isReplace params item itemWord ud then
      resolveEffects ++ [.setUndoPoint, .confirmEdit, .skipNextComplete]
    else
      resolveEffects
  else
    []

/-! ## Preview (Source.getPreviewer / Source.converter, nvim-lsp.ts:252-335) -/

/-- A ddc `Previewer` as produced here: `{ kind: "empty" }` or
`{ kind: "markdown", contents }`. -/
structure Previewer where
  kind : String
  contents : List String
  deriving DecidableEq, Repr

/-- `Source.converter` (nvim-lsp.ts:326-335): a plain string is split into
lines; `MarkupContent` of kind `"plaintext"` is wrapped in a
`<text>`/`</text>` marker pair before splitting, other kinds are split
as-is. -/
def converter (doc : Doc) : List String :=
  match doc with
  | .str s => splitLines s
  | .markup m =>
    splitLines (if m.kind = "plaintext" then "<text>\n" ++ m.value ++ "\n</text>" else m.value)

/-- The documentation-presence test of nvim-lsp.ts:311-316:
a non-empty string, or markup whose `value` is non-empty. -/
def docHasContent : Doc → Bool
  | .str s => s.length > 0
  | .markup m => m.value.length > 0

/-- The `contents` accumulation of `getPreviewer` for a non-snippet item
(nvim-lsp.ts:287-323), written exactly as the source pushes: a fenced
`detail` block when `lspItem.detail` is truthy (a non-empty string); the
denols `import from` line when the unresolved item's `data` matches
`{ tsc: { source: string } }`, preceded by `"---"` when something was
already pushed; the converted documentation when present and non-empty,
preceded by `"---"` when something was already pushed. -/
def previewContents (filetype : String) (item : LspItem)
    (tscSource : Option String) : List String :=
  let c1 : List String :=
    match item.detail with
    | some d => if d.isEmpty then [] else ["```" ++ filetype] ++ splitLines d ++ ["```"]
    | none => []
  let c2 : List String :=
    match tscSource with
    | some src =>
      c1 ++ (if c1.isEmpty then [] else ["---"]) ++ ["import from `" ++ src ++ "`"]
    | none => c1
  match item.documentation with
  | some doc =>
    if docHasContent doc then
      c2 ++ (if c2.isEmpty then [] else ["---"]) ++ converter doc
    else c2
  | none => c2

/-- `Source.getPreviewer` (nvim-lsp.ts:252-324) as previewer plus the
host-visible effects.  `item.user_data === undefined` returns
`{ kind: "empty" }` before any host call.  Otherwise the item is always
resolved (`resolveResult = none` models a `null` resolve answer, falling
back to the unresolved item), the filetype is read, and a `kind = 15`
(Snippet) item is rendered from the host-parsed snippet `body`
(a parameter, like the RPC answers). -/
def getPreviewer (resolveResult : Option LspItem) (filetype : String)
    (snippetBody : String) (userData : Option UserData) :
    Previewer × List Effect :=
  match userData with
  | none => (⟨"empty", []⟩, [])
  | some ud =>
    let unresolved := ud.lspitem
    let item := resolveResult.getD unresolved
    if item.kind = some 15 then
      (⟨"markdown", ["```" ++ filetype] ++ splitLines snippetBody ++ ["```"]⟩,
        [.resolveCall ud.clientId, .getFiletype, .parseSnippetCall])
    else
      (⟨"markdown", previewContents filetype item unresolved.dataTscSource⟩,
        [.resolveCall ud.clientId, .getFiletype])

/-! ## Spec-side rendition of the preview layout (for claim C9)

The claim describes the document as three sections concatenated in order
with a horizontal rule inserted before a section exactly when some prior
section produced content.  `specPreviewSections`/`joinWithRule` follow the
claim's words; the refinement theorem compares them with
`previewContents`, which follows the source. -/

/-- The three sections of the claim, each `[]` when absent: fenced detail
block, import-source annotation, documentation (plain-text markup wrapped
in the marker pair by `converter`). -/
def specPreviewSections (filetype : String) (item : LspItem)
    (tscSource : Option String) : List (List String) :=
  [ (match item.detail with
     | some d => if d.isEmpty then [] else ["```" ++ filetype] ++ splitLines d ++ ["```"]
     | none => []),
    (match tscSource with
     | some src => ["import from `" ++ src ++ "`"]
     | none => []),
    (match item.documentation with
     | some doc => if docHasContent doc then converter doc else []
     | none => []) ]

/-- Concatenate sections in order, inserting `"---"` before a section
exactly when some prior section produced content. -/
def joinWithRule (sections : List (List String)) : List String :=
  sections.foldl
    (fun acc sec =>
      if sec.isEmpty then acc
      else acc ++ (if acc.isEmpty then [] else ["---"]) ++ sec)
    []

/-! ## Helper definitions and lemmas for the theorems -/

/-- The trigger context a client step carried, when a request was issued
(none for a cache hit). -/
def requestedContext {α : Type} : ClientStep α → Option CompletionContext
  | .cacheHit _ => none
  | .requested ctx _ => some ctx

/-- A freshly written cache binding is found by `cacheGet`. -/
theorem cacheGet_put_self {α : Type} (c : Cache α) (id : Nat) (items : List α) :
    cacheGet (cachePut c id items) id = some items := by
  simp [cacheGet, cachePut, List.find?]

/-- Closed form of one gather step for a client with no cache entry whose
request succeeded: the normalized items are appended, the flag is ORed in,
and the cache is written exactly when the response is complete. -/
theorem gatherStep_success {α : Type} (norm : LspItem → Option ItemDefaults → Option α)
    (input : String) (inc : Bool) (st : GatherState α) (cl : Client) (r : Result)
    (h : cacheGet st.cache cl.id = none) :
    gatherStep norm input inc st (cl, .success r) =
      { st with
        cache :=
          if (toCompletionList r).isIncomplete then st.cache
          else cachePut st.cache cl.id ((toCompletionList r).items.filterMap
            (fun it => norm it (toCompletionList r).itemDefaults)),
        isIncomplete := st.isIncomplete || (toCompletionList r).isIncomplete,
        acc := st.acc ++ [(toCompletionList r).items.filterMap
          (fun it => norm it (toCompletionList r).itemDefaults)] } := by
  simp [gatherStep, processClient, h]

/-- A gather step only ever appends to the error accumulator. -/
theorem gatherStep_errors {α : Type} (norm : LspItem → Option ItemDefaults → Option α)
    (input : String) (inc : Bool) (st : GatherState α) (co : Client × RequestOutcome) :
    ∃ t, (gatherStep norm input inc st co).errors = st.errors ++ t := by
  unfold gatherStep
  cases processClient st.cache co.1 co.2 norm input inc with
  | cacheHit items => exact ⟨[], by simp⟩
  | requested ctx res =>
    cases res with
    | failed e => exact ⟨[e], by simp⟩
    | timedOut => exact ⟨[], by simp⟩
    | completed i it => exact ⟨[], by simp⟩

/-- A whole gather cycle only ever appends to the error accumulator. -/
theorem gatherFold_errors {α : Type} (norm : LspItem → Option ItemDefaults → Option α)
    (input : String) (inc : Bool) (l : List (Client × RequestOutcome)) (st : GatherState α) :
    ∃ t, (l.foldl (gatherStep norm input inc) st).errors = st.errors ++ t := by
  induction l generalizing st with
  | nil => exact ⟨[], by simp⟩
  | cons x xs ih =>
    obtain ⟨t1, h1⟩ := gatherStep_errors norm input inc st x
    obtain ⟨t2, h2⟩ := ih (gatherStep norm input inc st x)
    exact ⟨t1 ++ t2, by simp [List.foldl_cons, h2, h1]⟩

/-- `splitOnNewline` always returns at least one segment. -/
theorem splitOnNewline_ne_nil (l : List Char) : splitOnNewline l ≠ [] := by
  match l with
  | [] => simp [splitOnNewline]
  | c :: rest =>
    unfold splitOnNewline
    split
    · simp
    · rcases hr : splitOnNewline rest with _ | ⟨a, as⟩ <;> simp [hr]

/-- `splitLines` never returns the empty list (JS `split` always yields at
least one segment). -/
theorem splitLines_ne_nil (s : String) : splitLines s ≠ [] := by
  unfold splitLines
  simp [splitOnNewline_ne_nil]

/-- `converter` never returns the empty list. -/
theorem converter_ne_nil : ∀ d : Doc, converter d ≠ []
  | .str s => splitLines_ne_nil s
  | .markup _ => splitLines_ne_nil _

/-- The source's imperative `contents` accumulation equals the
sections-joined-with-rule reading of the spec, for every item. -/
theorem previewContents_eq_join (ft : String) (item : LspItem)
    (tsc : Option String) :
    previewContents ft item tsc = joinWithRule (specPreviewSections ft item tsc) := by
  unfold previewContents specPreviewSections joinWithRule
  rcases item with ⟨label, kind, detail, doc, insertText, ate, data⟩
  simp only []
  rcases detail with _ | d
  · rcases tsc with _ | src
    · rcases doc with _ | dd
      · simp
      · rcases hdc : docHasContent dd with _ | _
        · simp [hdc]
        · rcases hcv : converter dd with _ | ⟨a, as⟩
          · exact absurd hcv (converter_ne_nil dd)
          · simp [hdc, hcv]
    · rcases doc with _ | dd
      · simp
      · rcases hdc : docHasContent dd with _ | _
        · simp [hdc]
        · rcases hcv : converter dd with _ | ⟨a, as⟩
          · exact absurd hcv (converter_ne_nil dd)
          · simp [hdc, hcv]
  · rcases hde : d.isEmpty with _ | _
    · rcases tsc with _ | src
      · rcases doc with _ | dd
        · simp [hde]
        · rcases hdc : docHasContent dd with _ | _
          · simp [hde, hdc]
          · rcases hcv : converter dd with _ | ⟨a, as⟩
            · exact absurd hcv (converter_ne_nil dd)
            · simp [hde, hdc, hcv]
      · rcases doc with _ | dd
        · simp [hde]
        · rcases hdc : docHasContent dd with _ | _
          · simp [hde, hdc]
          · rcases hcv : converter dd with _ | ⟨a, as⟩
            · exact absurd hcv (converter_ne_nil dd)
            · simp [hde, hdc, hcv]
    · rcases tsc with _ | src
      · rcases doc with _ | dd
        · simp [hde]
        · rcases hdc : docHasContent dd with _ | _
          · simp [hde, hdc]
          · rcases hcv : converter dd with _ | ⟨a, as⟩
            · exact absurd hcv (converter_ne_nil dd)
            · simp [hde, hdc, hcv]
      · rcases doc with _ | dd
        · simp [hde]
        · rcases hdc : docHasContent dd with _ | _
          · simp [hde, hdc]
          · rcases hcv : converter dd with _ | ⟨a, as⟩
            · exact absurd hcv (converter_ne_nil dd)
            · simp [hde, hdc, hcv]

/-! ## Concrete instances used by witnesses and counterexamples -/

/-- A minimal completion item. -/
def itemA : LspItem := ⟨"a", none, none, none, none, none, none⟩

/-- A provider with no trigger characters. -/
def clA : Client := ⟨1, ⟨none, none⟩, "utf-16"⟩

/-- A second provider with no trigger characters. -/
def clB : Client := ⟨2, ⟨none, none⟩, "utf-16"⟩

/-- A provider registering `"."` as a trigger character. -/
def clTrig : Client := ⟨3, ⟨some ["."], none⟩, "utf-16"⟩

/-- A normalizer mapping every item to the ddc item `0`. -/
def normOne : LspItem → Option ItemDefaults → Option Nat := fun _ _ => some 0

/-- Stored user data with `resolvable = false`, client 7, suggestion start 0. -/
def udA : UserData := ⟨itemA, 7, "utf-16", false, "ab", 2, 0⟩

/-- Configuration with `enableResolveItem = true`. -/
def paramsResolve : Params := ⟨"", true, false, .insert, "~"⟩

/-- The default configuration (everything off). -/
def paramsPlain : Params := ⟨"", false, false, .insert, "~"⟩

/-- An item with detail, plain-text documentation and a denols
`data.tsc.source` payload. -/
def itemDoc : LspItem :=
  ⟨"lbl", some 1, some "sig", some (.markup ⟨"plaintext", "docs"⟩), none, none,
    some "mod.ts"⟩

/-- User data wrapping `itemDoc`. -/
def udDoc : UserData := ⟨itemDoc, 3, "utf-8", true, "", 0, 0⟩

/-! ## Claim C1 -/

/-- C1 counterexample.  The claim says a non-timeout failure of one provider
leaves sibling providers' items unaffected.  Concretely: provider `clA`
answers with one item (alone it yields `[0]`), provider `clB` fails with
`"boom"`; the cycle's returned item list is `[]` — the sibling's item is
discarded — while the error is reported.  The single `.catch` sits on
`Promise.all`, so one rejection empties the merged list. -/
theorem c1_counterexample :
    (gather ([] : Cache Nat) [(clA, .success (.arr [itemA])), (clB, .failure "boom")]
      normOne "x" false).items = [] ∧
    (gather ([] : Cache Nat) [(clA, .success (.arr [itemA])), (clB, .failure "boom")]
      normOne "x" false).reportedErrors = ["boom"] ∧
    (gather ([] : Cache Nat) [(clA, .success (.arr [itemA]))] normOne "x" false).items
      = [0] := by decide

/-- C1 (amended): when a provider with no cache entry fails with a
non-timeout error, the failure is caught and reported via the user-visible
error channel, and the whole cycle returns an empty item list — sibling
providers' items are discarded as well. -/
theorem c1_failure_reported_all_items_dropped {α : Type} (cache : Cache α)
    (cl : Client) (e : String) (rest : List (Client × RequestOutcome))
    (norm : LspItem → Option ItemDefaults → Option α) (input : String) (inc : Bool)
    (h : cacheGet cache cl.id = none) :
    (gather cache ((cl, .failure e) :: rest) norm input inc).reportedErrors = [e] ∧
    (gather cache ((cl, .failure e) :: rest) norm input inc).items = [] := by
  have hst1 : gatherStep norm input inc ⟨cache, false, [], []⟩ (cl, .failure e) =
      ⟨cache, false, [], [e]⟩ := by
    simp [gatherStep, processClient, h]
  obtain ⟨t, ht⟩ := gatherFold_errors norm input inc rest ⟨cache, false, [], [e]⟩
  unfold gather gatherState
  rw [List.foldl_cons, hst1]
  refine ⟨?_, ?_⟩
  · simp [ht]
  · simp [ht]

/-- C1 witness: a one-provider cycle whose request fails with `"err"`. -/
theorem c1_witness :
    (gather ([] : Cache Nat) [(clB, RequestOutcome.failure "err")] normOne "x"
      false).reportedErrors = ["err"] ∧
    (gather ([] : Cache Nat) [(clB, RequestOutcome.failure "err")] normOne "x"
      false).items = [] :=
  c1_failure_reported_all_items_dropped [] clB "err" [] normOne "x" false (by decide)

/-! ## Claim C2 -/

/-- C2: for a provider with no cache entry whose request succeeded, the
normalized items are stored in the per-provider cache if and only if the
response's `isIncomplete` flag is false; a provider whose response has
`isIncomplete = true` is never present in the cache after the step. -/
theorem c2_cache_put_iff_complete {α : Type} (norm : LspItem → Option ItemDefaults → Option α)
    (input : String) (inc : Bool) (st : GatherState α) (cl : Client) (r : Result)
    (h : cacheGet st.cache cl.id = none) :
    (cacheGet (gatherStep norm input inc st (cl, .success r)).cache cl.id =
        some ((toCompletionList r).items.filterMap
          (fun it => norm it (toCompletionList r).itemDefaults))
      ↔ (toCompletionList r).isIncomplete = false) ∧
    ((toCompletionList r).isIncomplete = true →
      cacheGet (gatherStep norm input inc st (cl, .success r)).cache cl.id = none) := by
  rw [gatherStep_success norm input inc st cl r h]
  cases hinc : (toCompletionList r).isIncomplete with
  | true => simp [hinc, h]
  | false => simp [hinc, cacheGet_put_self]

/-- C2 witness: a complete (`isIncomplete = false`) array response is
cached for client 1 as `[0]`. -/
theorem c2_witness :
    cacheGet ((gatherStep normOne "x" false ⟨[], false, [], []⟩
      (clA, RequestOutcome.success (.arr [itemA]))).cache) 1 = some [0] :=
  (c2_cache_put_iff_complete normOne "x" false ⟨[], false, [], []⟩ clA (.arr [itemA])
    (by decide)).1.mpr (by decide)

/-! ## Claim C3 -/

/-- C3: after a gather cycle whose merged `isIncomplete` flag is false, a
lookup for every provider finds no cached entry (the whole cache is
cleared); when the merged flag is true the cache is left exactly as the
cycle's per-provider updates produced it (not cleared). -/
theorem c3_cache_cleared_iff_complete {α : Type} (cache : Cache α)
    (clients : List (Client × RequestOutcome))
    (norm : LspItem → Option ItemDefaults → Option α) (input : String) (inc : Bool) :
    ((gather cache clients norm input inc).isIncomplete = false →
      ∀ id, cacheGet (gather cache clients norm input inc).cache id = none) ∧
    ((gather cache clients norm input inc).isIncomplete = true →
      (gather cache clients norm input inc).cache =
        (gatherState cache clients norm input inc).cache) := by
  constructor
  · intro h id
    have hs : (gatherState cache clients norm input inc).isIncomplete = false := h
    simp [gather, hs, cacheGet]
  · intro h
    have hs : (gatherState cache clients norm input inc).isIncomplete = true := h
    simp [gather, hs]

/-- C3 witness: a cycle with one complete response clears a pre-existing
entry for provider 5. -/
theorem c3_witness :
    cacheGet (gather [(5, [3])] [(clA, RequestOutcome.success (.arr [itemA]))]
      normOne "x" false).cache 5 = none :=
  (c3_cache_cleared_iff_complete [(5, [3])] [(clA, .success (.arr [itemA]))]
    normOne "x" false).1 (by decide) 5

/-! ## Claim C4 -/

/-- C4: if the live buffer text between the item's recorded suggestion
start offset and the current cursor offset does not equal the accepted
display text, `onCompleteDone` performs no host-visible action at all —
no buffer mutation and no error. -/
theorem c4_guard_mismatch_silent_noop (gi : LspItem → String)
    (ir : LspItem → ConfirmBehavior → Nat → Nat → Bool) (rr : Option LspItem)
    (itemWord : String) (ctx : LineContext) (ud : UserData) (params : Params)
    (h : jsSlice ctx.text ud.suggestCharacter ctx.character ≠ itemWord) :
    onCompleteDone gi ir rr itemWord ctx ud params = [] := by
  simp [onCompleteDone, h]

/-- C4 witness: live text `"ab"` does not match accepted word `"zz"`. -/
theorem c4_witness :
    onCompleteDone (fun _ => "") (fun _ _ _ _ => false) none "zz" ⟨"ab", 2⟩ udA
      paramsPlain = [] :=
  c4_guard_mismatch_silent_noop _ _ none "zz" ⟨"ab", 2⟩ udA paramsPlain (by decide)

/-! ## Claim C5 -/

/-- C5 counterexample.  The claim says resolution is fetched exactly when
the item's `resolvable` flag is true and `enableResolveItem` is set.
Concretely: `udA.resolvable = false`, yet with `enableResolveItem = true`
the resolve call is still issued — nvim-lsp.ts:207 tests only
`params.enableResolveItem` and never consults `userData.resolvable`. -/
theorem c5_counterexample :
    Effect.resolveCall 7 ∈ onCompleteDone (fun _ => "ab") (fun _ _ _ _ => false) none
      "ab" ⟨"ab", 2⟩ udA paramsResolve ∧
    udA.resolvable = false := by decide

/-- C5 (amended): past the guard, the resolved candidate is fetched exactly
when `enableResolveItem` is set — the `resolvable` flag is not consulted —
and a `null` resolution falls back to the unresolved candidate. -/
theorem c5_resolve_iff_enabled (gi : LspItem → String)
    (ir : LspItem → ConfirmBehavior → Nat → Nat → Bool) (rr : Option LspItem)
    (itemWord : String) (ctx : LineContext) (ud : UserData) (params : Params)
    (h : jsSlice ctx.text ud.suggestCharacter ctx.character = itemWord) :
    ((Effect.resolveCall ud.clientId ∈ onCompleteDone gi ir rr itemWord ctx ud params) ↔
      params.enableResolveItem = true) ∧
    (rr = none → finalLspItem params rr ud = ud.lspitem) := by
  constructor
  · cases hE : params.enableResolveItem <;>
      cases hN : needsConfirm gi ir params (finalLspItem params rr ud) itemWord ud <;>
        simp [onCompleteDone, h, hE, hN]
  · intro hrr
    cases hE : params.enableResolveItem <;> simp [finalLspItem, hE, hrr]

/-- C5 witness: with resolution enabled the resolve call is issued. -/
theorem c5_witness :
    Effect.resolveCall 7 ∈ onCompleteDone (fun _ => "no") (fun _ _ _ _ => false) none
      "ab" ⟨"ab", 2⟩ udA paramsResolve :=
  ((c5_resolve_iff_enabled _ _ none "ab" ⟨"ab", 2⟩ udA paramsResolve (by decide)).1).mpr
    rfl

/-! ## Claim C6 -/

/-- C6: a provider not served from cache is sent a request whose trigger
context is: `TriggerCharacter` with the most-recently-typed character when
that character is among the provider's registered trigger characters;
otherwise `TriggerForIncompleteCompletions` when the session continues an
incomplete completion; otherwise `Invoked`. -/
theorem c6_trigger_context {α : Type} (cache : Cache α) (cl : Client)
    (outcome : RequestOutcome) (norm : LspItem → Option ItemDefaults → Option α)
    (input : String) (inc : Bool)
    (h : cacheGet cache cl.id = none) :
    requestedContext (processClient cache cl outcome norm input inc) =
      some (computeContext cl.provider.triggerCharacters input inc) ∧
    (lastCharStr input ∈ cl.provider.triggerCharacters.getD [] →
      computeContext cl.provider.triggerCharacters input inc =
        ⟨.TriggerCharacter, some (lastCharStr input)⟩) ∧
    (lastCharStr input ∉ cl.provider.triggerCharacters.getD [] →
      inc = true →
      computeContext cl.provider.triggerCharacters input inc =
        ⟨.TriggerForIncompleteCompletions, none⟩) ∧
    (lastCharStr input ∉ cl.provider.triggerCharacters.getD [] →
      inc = false →
      computeContext cl.provider.triggerCharacters input inc = ⟨.Invoked, none⟩) := by
  refine ⟨?_, ?_, ?_, ?_⟩
  · cases outcome <;> simp [processClient, h, requestedContext]
  · intro ht; simp [computeContext, ht]
  · intro ht hinc; simp [computeContext, ht, hinc]
  · intro ht hinc; simp [computeContext, ht, hinc]

/-- C6 witness: typing `"a."` with `"."` registered yields a
`TriggerCharacter "."` context. -/
theorem c6_witness :
    requestedContext (processClient ([] : Cache Nat) clTrig RequestOutcome.timeout
        normOne "a." false) = some (computeContext clTrig.provider.triggerCharacters
        "a." false) ∧
    computeContext clTrig.provider.triggerCharacters "a." false =
      ⟨CompletionTriggerKind.TriggerCharacter, some "."⟩ := by
  have h := c6_trigger_context ([] : Cache Nat) clTrig RequestOutcome.timeout normOne
    "a." false (by decide)
  exact ⟨h.1, h.2.1 (by decide)⟩

/-! ## Claim C7 -/

/-- C7: a provider whose request times out contributes exactly one empty
item list to the cycle and changes nothing else — no error is recorded, the
cache and the incompleteness flag are untouched. -/
theorem c7_timeout_silent_empty {α : Type} (norm : LspItem → Option ItemDefaults → Option α)
    (input : String) (inc : Bool) (st : GatherState α) (cl : Client)
    (h : cacheGet st.cache cl.id = none) :
    gatherStep norm input inc st (cl, .timeout) = { st with acc := st.acc ++ [[]] } := by
  simp [gatherStep, processClient, h]

/-- C7 witness: a timed-out request from provider 1 on the empty state. -/
theorem c7_witness :
    gatherStep normOne "x" false ⟨[], false, [], []⟩ (clA, RequestOutcome.timeout) =
      ⟨[], false, [[]], []⟩ :=
  c7_timeout_silent_empty normOne "x" false ⟨[], false, [], []⟩ clA (by decide)

/-! ## Claim C8 -/

/-- C8: when the accepted display text equals the candidate's canonical
insert text, no enabled additional text edits are present, and no range
replacement is required, `onCompleteDone` performs no buffer mutation (no
undo point, no confirm edit). -/
theorem c8_native_insertion_sufficient (gi : LspItem → String)
    (ir : LspItem → ConfirmBehavior → Nat → Nat → Bool) (rr : Option LspItem)
    (itemWord : String) (ctx : LineContext) (ud : UserData) (params : Params)
    (h1 : gi (finalLspItem params rr ud) = itemWord)
    (h2 : (params.enableAdditionalTextEdit &&
      (finalLspItem params rr ud).additionalTextEdits.isSome) = false)
    (h3 : ir (finalLspItem params rr ud) params.confirmBehavior
      ud.suggestCharacter ud.requestCharacter = false) :
    Effect.confirmEdit ∉ onCompleteDone gi ir rr itemWord ctx ud params ∧
    Effect.setUndoPoint ∉ onCompleteDone gi ir rr itemWord ctx ud params := by
  have hnc : needsConfirm gi ir params (finalLspItem params rr ud) itemWord ud = false := by
    simp [needsConfirm, h1, h2, h3]
  have key : onCompleteDone gi ir rr itemWord ctx ud params =
      if jsSlice ctx.text ud.suggestCharacter ctx.character = itemWord then
        (if params.enableResolveItem then [Effect.resolveCall ud.clientId] else [])
      else [] := by
    simp [onCompleteDone, hnc]
  rw [key]
  constructor <;> (split_ifs <;> simp)

/-- C8 witness: accepted word `"ab"` equal to the canonical insert text,
no additional text edits, insert behavior. -/
theorem c8_witness :
    Effect.confirmEdit ∉ onCompleteDone (fun _ => "ab") (fun _ _ _ _ => false) none
      "ab" ⟨"ab", 2⟩ udA paramsPlain ∧
    Effect.setUndoPoint ∉ onCompleteDone (fun _ => "ab") (fun _ _ _ _ => false) none
      "ab" ⟨"ab", 2⟩ udA paramsPlain :=
  c8_native_insertion_sufficient _ _ none "ab" ⟨"ab", 2⟩ udA paramsPlain
    (by decide) (by decide) (by decide)

/-! ## Claim C9 -/

/-- C9: for a previewed non-snippet item, the display document is the
ordered concatenation of the fenced detail block, the import-source
annotation and the (marker-wrapped when plain-text) documentation, with a
horizontal rule inserted before a section exactly when a prior section
produced content. -/
theorem c9_preview_layout (rr : Option LspItem) (ft sb : String) (ud : UserData)
    (h : (rr.getD ud.lspitem).kind ≠ some 15) :
    (getPreviewer rr ft sb (some ud)).1 =
      ⟨"markdown",
        joinWithRule (specPreviewSections ft (rr.getD ud.lspitem)
          ud.lspitem.dataTscSource)⟩ := by
  simp [getPreviewer, h, previewContents_eq_join]

/-- C9 witness: an item with detail, plain-text documentation and a denols
module source, kind 1 (not a snippet). -/
theorem c9_witness :
    (getPreviewer (none : Option LspItem) "ts" "b" (some udDoc)).1 =
      ⟨"markdown",
        joinWithRule (specPreviewSections "ts"
          ((none : Option LspItem).getD udDoc.lspitem) udDoc.lspitem.dataTscSource)⟩ :=
  c9_preview_layout none "ts" "b" udDoc (by decide)

/-! ## Claim C10 -/

/-- C10: an item with no `user_data` payload yields the empty previewer
with no host call at all. -/
theorem c10_no_user_data_empty (rr : Option LspItem) (ft sb : String) :
    getPreviewer rr ft sb none = (⟨"empty", []⟩, []) := rfl

end NvimLsp
